import Mathlib

/-!
Verification development for a small authenticated file-upload HTTP endpoint
(`server.py`).  The handler logic is embedded shallowly:

* Python strings are modelled as `List Char`, byte bodies as `List Nat`.
* The request handler `upload_file` is a pure function from a configuration,
  an environment (wall-clock strings, zip-integrity oracle, filesystem facts)
  and a request to a `HandlerResult`: an HTTP response (status, message)
  together with the trace of filesystem actions performed, or `raised` when
  an exception escapes the handler uncaught.
* `werkzeug.utils.secure_filename` is modelled step for step for a POSIX
  host (`os.sep = '/'`, `os.path.altsep = None`, `os.name ≠ 'nt'`): the
  NFKD-normalise/ASCII-encode step is modelled as dropping non-ASCII
  characters (exact on ASCII and non-decomposable input), then separators
  become spaces, `"_".join(s.split())` collapses whitespace runs, the regex
  `[^A-Za-z0-9_.-]` strips unsafe characters, and finally `.strip("._")`.
* `str.lower` is modelled on ASCII (`lowerChar`), which is exact on the
  ASCII extension strings the allow-list compares against.
-/

/-- Characters Python's `str.split()` treats as whitespace (ASCII range). -/
def isPySpace (c : Char) : Bool :=
  c = ' ' || c = '\t' || c = '\n' || c = '\r' || c = '\x0b' || c = '\x0c'

/-- Characters kept by werkzeug's regex `[A-Za-z0-9_.-]`. -/
def isSafeChar (c : Char) : Bool :=
  c.isAlphanum || c = '_' || c = '.' || c = '-'

/-- Characters removed by the final `.strip("._")`. -/
def isStripChar (c : Char) : Bool :=
  c = '.' || c = '_'

/-- ASCII lower-casing, modelling Python `str.lower` on ASCII characters. -/
def lowerChar (c : Char) : Char :=
  if c.isUpper then Char.ofNat (c.toNat + 32) else c

/-- `str.lower` on a whole string. -/
def lowerStr (s : List Char) : List Char := s.map lowerChar

/-- State of the `"_".join(s.split())` scanner: before any word, inside a
word, or in whitespace after at least one word. -/
inductive SjState where
  | start
  | inWord
  | gap
deriving DecidableEq

/-- Structural scanner implementing `"_".join(s.split())`: drops leading and
trailing whitespace and replaces each interior whitespace run by `'_'`. -/
def sjAux (st : SjState) : List Char → List Char
  | [] => []
  | c :: cs =>
    if isPySpace c then
      match st with
      | .start => sjAux .start cs
      | .inWord => sjAux .gap cs
      | .gap => sjAux .gap cs
    else
      match st with
      | .start => c :: sjAux .inWord cs
      | .inWord => c :: sjAux .inWord cs
      | .gap => '_' :: c :: sjAux .inWord cs

/-- `"_".join(s.split())`. -/
def splitJoin (s : List Char) : List Char := sjAux .start s

/-- Python `str.strip(chars)`: drop the given characters from both ends. -/
def pyStrip (p : Char → Bool) (s : List Char) : List Char :=
  ((s.dropWhile p).reverse.dropWhile p).reverse

/-- werkzeug's `secure_filename`, modelled for a POSIX host (see module
docstring): ASCII-restrict, map `'/'` to `' '`, collapse whitespace to `'_'`,
drop characters outside `[A-Za-z0-9_.-]`, then `.strip("._")`. -/
def secure_filename (fn : List Char) : List Char :=
  let ascii := fn.filter (fun c => c.toNat < 128)
  let nosep := ascii.map (fun c => if c = '/' then ' ' else c)
  let joined := splitJoin nosep
  let kept := joined.filter isSafeChar
  pyStrip isStripChar kept

/-- The configured allow-listed extensions, `ALLOWED_EXTENSIONS = {'zip', 'csv'}`. -/
def ALLOWED_EXTENSIONS : List (List Char) := ["zip".data, "csv".data]

/-- The substring after the last `'.'` of `fn`: `fn.rsplit('.', 1)[1]` when
`fn` contains a dot. -/
def extAfterLastDot (fn : List Char) : List Char :=
  (fn.reverse.takeWhile (fun c => c ≠ '.')).reverse

/-- `allowed_file` from `server.py`: the name contains a dot and the
lower-cased suffix after the last dot is in the allow-list. -/
def allowed_file (fn : List Char) : Bool :=
  fn.contains '.' && ALLOWED_EXTENSIONS.contains (lowerStr (extAfterLastDot fn))

/-- The multipart `file` part: client-supplied filename and byte content. -/
structure FilePart where
  filename : List Char
  content : List Nat
deriving DecidableEq

/-- One upload request: the `X-ET-AUTH-TOKEN` header value (if present), the
optional `file` part, and the `description` form field (default `''`). -/
structure UploadRequest where
  authToken : Option (List Char)
  filePart : Option FilePart
  description : List Char
deriving DecidableEq

/-- Process configuration: the `API_KEY` secret and the storage root
(`UPLOAD_FOLDER`). -/
structure ServerConfig where
  apiKey : List Char
  uploadFolder : List Char
deriving DecidableEq

/-- Outcome of opening the written file with `zipfile.ZipFile` and running
`testzip()`: opens and tests clean, opens but has a corrupted member
(`testzip() is not None`), or raises on open/test. -/
inductive ZipOutcome where
  | ok
  | corruptMember
  | openError
deriving DecidableEq

/-- Ambient world inputs of one handler run: today's date string
(`%Y-%m-%d`), the current time string (`%H%M%S`), whether the daily folder
already exists, the zip-integrity oracle for the written bytes, and whether
the description-file write raises an `OSError`. -/
structure ServerEnv where
  dateStr : List Char
  timeStr : List Char
  dailyFolderExists : Bool
  zipTest : List Nat → ZipOutcome
  descWriteFails : Bool

/-- A filesystem action performed by the handler.  Paths are lists of path
components (the model of `os.path.join` on separator-free component names). -/
inductive FsAction where
  | mkdirp (path : List (List Char))
  | writeBytes (path : List (List Char)) (content : List Nat)
  | writeText (path : List (List Char)) (content : List Char)
  | delete (path : List (List Char))
deriving DecidableEq

def FsAction.isWriteBytes : FsAction → Bool
  | .writeBytes _ _ => true
  | .mkdirp _ => false
  | .writeText _ _ => false
  | .delete _ => false

def FsAction.isWriteText : FsAction → Bool
  | .writeText _ _ => true
  | .mkdirp _ => false
  | .writeBytes _ _ => false
  | .delete _ => false

def FsAction.isDelete : FsAction → Bool
  | .delete _ => true
  | .mkdirp _ => false
  | .writeBytes _ _ => false
  | .writeText _ _ => false

/-- Result of one handler run: an HTTP response (status, JSON message field)
with the filesystem trace, or an uncaught exception escaping the handler. -/
inductive HandlerResult where
  | resp (status : Nat) (msg : String) (tr : List FsAction)
  | raised (tr : List FsAction)
deriving DecidableEq

def HandlerResult.statusOf : HandlerResult → Option Nat
  | .resp s _ _ => some s
  | .raised _ => none

def HandlerResult.msgOf : HandlerResult → Option String
  | .resp _ m _ => some m
  | .raised _ => none

def HandlerResult.trace : HandlerResult → List FsAction
  | .resp _ _ tr => tr
  | .raised tr => tr

/-- `check_auth` from `server.py`: the `X-ET-AUTH-TOKEN` header equals
`API_KEY` (a missing header, Python `None`, never equals the key string). -/
def check_auth (cfg : ServerConfig) (req : UploadRequest) : Bool :=
  match req.authToken with
  | some t => t = cfg.apiKey
  | none => false

/-- The file suffix literal tested by `filename.endswith('.zip')`. -/
def dotZip : List Char := ".zip".data

/-- The sibling description file name suffix `_desc.txt`. -/
def descTxt : List Char := "_desc.txt".data

/-- The `upload_file` handler from `server.py`, translated branch for branch:
auth check, file-part presence, empty-filename check, extension allow-list on
the original filename, daily-folder creation, `secure_filename` sanitisation,
timestamped save, zip-integrity check when the sanitised name ends in
`.zip`, optional description write (whose failure propagates uncaught), and
the final 201. -/
def upload_file (cfg : ServerConfig) (env : ServerEnv) (req : UploadRequest) :
    HandlerResult :=
  if check_auth cfg req = false then .resp 401 "Unauthorized" []
  else
    match req.filePart with
    | none => .resp 400 "No file part" []
    | some file =>
      if file.filename = [] then .resp 400 "No selected file" []
      else if file.filename ≠ [] ∧ allowed_file file.filename = true then
        -- `if file and allowed_file(...)`: FileStorage truthiness is
        -- `bool(self.filename)`, i.e. a non-empty filename.
        let dailyFolder : List (List Char) := [cfg.uploadFolder, env.dateStr]
        let t1 : List FsAction :=
          if env.dailyFolderExists then [] else [.mkdirp dailyFolder]
        let filename := secure_filename file.filename
        let savePath : List (List Char) :=
          [cfg.uploadFolder, env.dateStr, env.timeStr ++ '_' :: filename]
        let t2 := t1 ++ [FsAction.writeBytes savePath file.content]
        let afterZip : List FsAction → HandlerResult := fun tr =>
          if req.description = [] then .resp 201 "Secure upload successful" tr
          else if env.descWriteFails then .raised tr
          else
            .resp 201 "Secure upload successful"
              (tr ++ [FsAction.writeText
                [cfg.uploadFolder, env.dateStr, env.timeStr ++ descTxt]
                req.description])
        if dotZip <:+ filename then
          match env.zipTest file.content with
          | .corruptMember => .resp 400 "Corrupted ZIP" t2
          | .openError => .resp 400 "Invalid ZIP" t2
          | .ok => afterZip t2
        else afterZip t2
      else .resp 400 "Invalid file type" []

example : secure_filename ("a.zip".data) = "a.zip".data := by decide
example : secure_filename ("../../etc/passwd".data) = "etc_passwd".data := by decide
example : secure_filename ("My cool movie.mov".data) = "My_cool_movie.mov".data := by decide
example : allowed_file ("report.ZIP".data) = true := by decide
example : allowed_file ("a.txt".data) = false := by decide
example : secure_filename ("report.ZIP".data) = "report.ZIP".data := by decide
example : (dotZip <:+ secure_filename ("report.ZIP".data)) = False := by decide

/-! ### Concrete fixtures used by witness theorems -/

def keyW : List Char := "secret-key".data

def cfgW : ServerConfig :=
  { apiKey := keyW, uploadFolder := "received_reports".data }

def envW : ServerEnv :=
  { dateStr := "2026-10-12".data, timeStr := "101500".data,
    dailyFolderExists := false, zipTest := fun _ => ZipOutcome.ok,
    descWriteFails := false }

def reqBadTok : UploadRequest :=
  { authToken := some ("wrong".data),
    filePart := some { filename := "data.csv".data, content := [1, 2, 3] },
    description := [] }

def reqNoFile : UploadRequest :=
  { authToken := some keyW, filePart := none, description := [] }

def reqEmptyName : UploadRequest :=
  { authToken := some keyW,
    filePart := some { filename := [], content := [9] },
    description := [] }

def reqBadExt : UploadRequest :=
  { authToken := some keyW,
    filePart := some { filename := "notes.txt".data, content := [4, 5] },
    description := [] }

/-! ### C1: wrong or missing auth token -/

/-- C1: whenever the `X-ET-AUTH-TOKEN` header does not equal the configured
`API_KEY` (including a missing header), the handler answers 401 with the
`Unauthorized` error payload and its filesystem trace is empty: no directory
is created and no file is written, whatever the rest of the request holds. -/
theorem upload_unauthorized (cfg : ServerConfig) (env : ServerEnv)
    (req : UploadRequest) (h : req.authToken ≠ some cfg.apiKey) :
    upload_file cfg env req = .resp 401 "Unauthorized" [] := by
  have hc : check_auth cfg req = false := by
    unfold check_auth
    cases hT : req.authToken with
    | none => rfl
    | some t =>
      simp only [decide_eq_false_iff_not]
      intro hEq
      exact h (by rw [hT, hEq])
  unfold upload_file
  rw [if_pos hc]

/-- C1 witness: a wrong token on an otherwise valid `.csv` upload. -/
theorem upload_unauthorized_witness :
    reqBadTok.authToken ≠ some cfgW.apiKey ∧
      upload_file cfgW envW reqBadTok = .resp 401 "Unauthorized" [] :=
  ⟨by decide, upload_unauthorized cfgW envW reqBadTok (by decide)⟩

/-! ### C2: extension allow-list on the original filename -/

/-- C2: for an authenticated request whose file part is present with a
non-empty filename, failing `allowed_file` on the original client-supplied
filename (no dot, or lower-cased suffix after the last dot outside
`{zip, csv}`) yields exactly the 400 `Invalid file type` response with an
empty filesystem trace: no file is written.  Acceptance therefore requires
`allowed_file` of the original name, checked before sanitisation. -/
theorem upload_invalid_file_type (cfg : ServerConfig) (env : ServerEnv)
    (req : UploadRequest) (f : FilePart) (hA : check_auth cfg req = true)
    (hf : req.filePart = some f) (hn : f.filename ≠ [])
    (hbad : allowed_file f.filename = false) :
    upload_file cfg env req = .resp 400 "Invalid file type" [] := by
  simp [upload_file, hA, hf, hn, hbad]

/-- C2 witness: an authenticated upload named `notes.txt`. -/
theorem upload_invalid_file_type_witness :
    check_auth cfgW reqBadExt = true ∧
      allowed_file ("notes.txt".data) = false ∧
      upload_file cfgW envW reqBadExt = .resp 400 "Invalid file type" [] :=
  ⟨by decide, by decide,
    upload_invalid_file_type cfgW envW reqBadExt _ (by decide) rfl
      (by decide) (by decide)⟩

/-! ### C7: missing file part / empty filename -/

/-- C7: on an authenticated request, a missing `file` part yields 400 with
the `No file part` message, and a present file part with an empty filename
yields 400 with the distinct `No selected file` message; both leave an empty
filesystem trace, so nothing is written. -/
theorem upload_missing_file (cfg : ServerConfig) (env : ServerEnv)
    (req : UploadRequest) (hA : check_auth cfg req = true) :
    (req.filePart = none →
      upload_file cfg env req = .resp 400 "No file part" []) ∧
    (∀ f, req.filePart = some f → f.filename = [] →
      upload_file cfg env req = .resp 400 "No selected file" []) := by
  constructor
  · intro h
    simp [upload_file, hA, h]
  · intro f hf he
    simp [upload_file, hA, hf, he]

/-- C7 witness: both missing-part and empty-filename cases at concrete
requests. -/
theorem upload_missing_file_witness :
    upload_file cfgW envW reqNoFile = .resp 400 "No file part" [] ∧
      upload_file cfgW envW reqEmptyName = .resp 400 "No selected file" [] :=
  ⟨(upload_missing_file cfgW envW reqNoFile (by decide)).1 rfl,
    (upload_missing_file cfgW envW reqEmptyName (by decide)).2 _ rfl (by decide)⟩

/-! ### Sanitisation pipeline lemmas -/

/-- Characters that pass through every stage of `secure_filename` unchanged:
ASCII, not the path separator, not whitespace, kept by the safe-character
regex, and not stripped by `.strip("._")`. -/
def goodExtChar (c : Char) : Bool :=
  decide (c.toNat < 128) && !(c == '/') && !(isPySpace c) && isSafeChar c &&
    !(isStripChar c)

theorem goodExtChar_spec {c : Char} (h : goodExtChar c = true) :
    c.toNat < 128 ∧ c ≠ '/' ∧ isPySpace c = false ∧ isSafeChar c = true ∧
      isStripChar c = false := by
  simp only [goodExtChar, Bool.and_eq_true, Bool.not_eq_true', beq_eq_false_iff_ne,
    decide_eq_true_eq] at h
  exact ⟨h.1.1.1.1, h.1.1.1.2, h.1.1.2, h.1.2, h.2⟩

theorem filter_append_all {p : Char → Bool} {ext : List Char}
    (h : ∀ c ∈ ext, p c = true) (xs : List Char) :
    (xs ++ ext).filter p = xs.filter p ++ ext := by
  rw [List.filter_append, List.filter_eq_self.mpr h]

theorem map_id_of_fixed {f : Char → Char} {ext : List Char}
    (h : ∀ c ∈ ext, f c = c) : ext.map f = ext := by
  induction ext with
  | nil => rfl
  | cons c cs ih =>
    rw [List.map_cons, h c (List.mem_cons_self c cs),
      ih (fun d hd => h d (List.mem_cons_of_mem _ hd))]

theorem map_append_fixed {f : Char → Char} {ext : List Char}
    (h : ∀ c ∈ ext, f c = c) (xs : List Char) :
    (xs ++ ext).map f = xs.map f ++ ext := by
  rw [List.map_append, map_id_of_fixed h]

theorem sjAux_inWord_no_space {l : List Char}
    (h : ∀ c ∈ l, isPySpace c = false) : sjAux .inWord l = l := by
  induction l with
  | nil => rfl
  | cons c cs ih =>
    have hc := h c (List.mem_cons_self c cs)
    simp [sjAux, hc, ih (fun d hd => h d (List.mem_cons_of_mem _ hd))]

theorem sjAux_suffix {ext : List Char} (hne : ext ≠ [])
    (hns : ∀ c ∈ ext, isPySpace c = false) :
    ∀ (xs : List Char) (st : SjState), ext <:+ sjAux st (xs ++ ext) := by
  intro xs
  induction xs with
  | nil =>
    intro st
    cases ext with
    | nil => exact absurd rfl hne
    | cons e es =>
      have he := hns e (List.mem_cons_self e es)
      have hes : sjAux .inWord es = es :=
        sjAux_inWord_no_space (fun d hd => hns d (List.mem_cons_of_mem _ hd))
      cases st <;> simp [sjAux, he, hes]
  | cons x xs ih =>
    intro st
    by_cases hx : isPySpace x = true
    · cases st <;> simp only [List.cons_append, sjAux, hx, if_true] <;> exact ih _
    · rw [Bool.not_eq_true] at hx
      cases st with
      | start =>
        simp only [List.cons_append, sjAux, hx]
        exact (ih SjState.inWord).trans (List.suffix_cons x _)
      | inWord =>
        simp only [List.cons_append, sjAux, hx]
        exact (ih SjState.inWord).trans (List.suffix_cons x _)
      | gap =>
        simp only [List.cons_append, sjAux, hx]
        exact ((ih SjState.inWord).trans (List.suffix_cons x _)).trans
          (List.suffix_cons '_' _)

theorem dropWhile_head_false {p : Char → Bool} :
    ∀ {s : List Char} {c : Char} {cs : List Char},
      s.dropWhile p = c :: cs → p c = false := by
  intro s
  induction s with
  | nil => intro c cs h; simp [List.dropWhile] at h
  | cons a as ih =>
    intro c cs h
    rw [List.dropWhile_cons] at h
    split at h
    · exact ih h
    · next hpa =>
      rw [Bool.not_eq_true] at hpa
      cases h
      exact hpa

theorem suffix_dropWhile {p : Char → Bool} {e : Char} {es : List Char}
    (hpe : p e = false) :
    ∀ {m : List Char}, (e :: es) <:+ m → (e :: es) <:+ m.dropWhile p := by
  intro m hm
  obtain ⟨ys, rfl⟩ := hm
  induction ys with
  | nil =>
    rw [List.nil_append, List.dropWhile_cons, hpe]
    simp
  | cons y ys ih =>
    rw [List.cons_append, List.dropWhile_cons]
    split
    · exact ih
    · exact List.suffix_append (y :: ys) (e :: es)

theorem dropWhile_reverse_eq {p : Char → Bool} {ext m : List Char}
    (hsuf : ext <:+ m) (hne : ext ≠ [])
    (hall : ∀ c ∈ ext, p c = false) :
    m.reverse.dropWhile p = m.reverse := by
  obtain ⟨ys, rfl⟩ := hsuf
  rw [List.reverse_append]
  cases hrev : ext.reverse with
  | nil => exact absurd (by simpa using congrArg List.reverse hrev) hne
  | cons f fs =>
    have hf : f ∈ ext := by
      rw [← List.mem_reverse, hrev]
      exact List.mem_cons_self _ _
    rw [List.cons_append, List.dropWhile_cons, hall f hf]
    simp

theorem pyStrip_suffix {p : Char → Bool} {e : Char} {es : List Char}
    (hall : ∀ c ∈ (e :: es), p c = false) {s : List Char}
    (hs : (e :: es) <:+ s) : (e :: es) <:+ pyStrip p s := by
  have h1 : (e :: es) <:+ s.dropWhile p :=
    suffix_dropWhile (hall e (List.mem_cons_self e es)) hs
  have h2 := dropWhile_reverse_eq h1 (List.cons_ne_nil e es) hall
  unfold pyStrip
  rw [h2, List.reverse_reverse]
  exact h1

/-- Main pipeline lemma: a nonempty extension made of good characters
survives every stage of `secure_filename` as a suffix of the result. -/
theorem secure_filename_suffix {e : Char} {es : List Char}
    (hgood : ∀ c ∈ (e :: es), goodExtChar c = true) (xs : List Char) :
    (e :: es) <:+ secure_filename (xs ++ (e :: es)) := by
  have hg := fun c hc => goodExtChar_spec (hgood c hc)
  show (e :: es) <:+ pyStrip isStripChar
    ((splitJoin (((xs ++ (e :: es)).filter (fun c => decide (c.toNat < 128))).map
      (fun c => if c = '/' then ' ' else c))).filter isSafeChar)
  rw [filter_append_all (fun c hc => decide_eq_true (hg c hc).1),
    map_append_fixed (fun c hc => if_neg (hg c hc).2.1)]
  have h3 := sjAux_suffix (List.cons_ne_nil e es)
    (fun c hc => (hg c hc).2.2.1)
    ((xs.filter fun c => decide (c.toNat < 128)).map
      fun c => if c = '/' then ' ' else c)
    SjState.start
  obtain ⟨zs, hzs⟩ := h3
  unfold splitJoin
  rw [← hzs, filter_append_all (fun c hc => (hg c hc).2.2.2.1)]
  exact pyStrip_suffix (fun c hc => (hg c hc).2.2.2.2)
    (List.suffix_append _ _)

theorem mem_pyStrip {p : Char → Bool} {s : List Char} {c : Char}
    (h : c ∈ pyStrip p s) : c ∈ s := by
  unfold pyStrip at h
  rw [List.mem_reverse] at h
  have h2 : c ∈ (s.dropWhile p).reverse := (List.dropWhile_sublist p).subset h
  rw [List.mem_reverse] at h2
  exact (List.dropWhile_sublist p).subset h2

theorem pyStrip_head_false {p : Char → Bool} {s : List Char} {c : Char}
    {cs : List Char} (h : pyStrip p s = c :: cs) : p c = false := by
  unfold pyStrip at h
  have hpre : ((s.dropWhile p).reverse.dropWhile p).reverse <+: s.dropWhile p := by
    have hsuf := List.dropWhile_suffix (l := (s.dropWhile p).reverse) p
    have := List.reverse_prefix.mpr hsuf
    rwa [List.reverse_reverse] at this
  rw [h] at hpre
  obtain ⟨t, ht⟩ := hpre
  exact dropWhile_head_false ht.symm

/-- Every character of a sanitised filename is in the safe set `[A-Za-z0-9_.-]`. -/
theorem secure_filename_mem_safe {fn : List Char} {c : Char}
    (h : c ∈ secure_filename fn) : isSafeChar c = true := by
  have h2 := mem_pyStrip h
  exact (List.mem_filter.mp h2).2

/-- A nonempty sanitised filename never starts with `'.'` or `'_'`. -/
theorem secure_filename_head {fn : List Char} {c : Char} {cs : List Char}
    (h : secure_filename fn = c :: cs) : isStripChar c = false :=
  pyStrip_head_false h

/-! ### Lower-casing facts -/

theorem lowerChar_eq_or_upper (c : Char) : lowerChar c = c ∨ c.isUpper = true := by
  unfold lowerChar
  split
  · next hu => exact Or.inr hu
  · exact Or.inl rfl

theorem toNat_bounds_of_isUpper {c : Char} (h : c.isUpper = true) :
    65 ≤ c.toNat ∧ c.toNat ≤ 90 := by
  simp only [Char.isUpper, Bool.and_eq_true, decide_eq_true_eq] at h
  obtain ⟨h1, h2⟩ := h
  exact ⟨UInt32.le_toNat_of_le (by decide) h1, UInt32.toNat_le_of_le (by decide) h2⟩

theorem char_ne_of_toNat {c d : Char} (h : c.toNat ≠ d.toNat) : c ≠ d :=
  fun he => h (he ▸ rfl)

theorem goodExtChar_intro {c : Char} (h1 : c.toNat < 128) (h2 : c ≠ '/')
    (h3 : isPySpace c = false) (h4 : isSafeChar c = true)
    (h5 : isStripChar c = false) : goodExtChar c = true := by
  simp only [goodExtChar, Bool.and_eq_true, Bool.not_eq_true',
    beq_eq_false_iff_ne, decide_eq_true_eq]
  exact ⟨⟨⟨⟨h1, h2⟩, h3⟩, h4⟩, h5⟩

theorem goodExtChar_of_upper {c : Char} (h : c.isUpper = true) :
    goodExtChar c = true := by
  obtain ⟨h1, h2⟩ := toNat_bounds_of_isUpper h
  have hne : ∀ d : Char, d.toNat < 65 ∨ 90 < d.toNat → c ≠ d := by
    intro d hd
    exact char_ne_of_toNat (by omega)
  refine goodExtChar_intro (by omega) (hne '/' (by decide)) ?_ ?_ ?_
  · simp only [isPySpace, Bool.or_eq_false_iff, decide_eq_false_iff_not]
    exact ⟨⟨⟨⟨⟨hne ' ' (by decide), hne '\t' (by decide)⟩, hne '\n' (by decide)⟩,
      hne '\r' (by decide)⟩, hne '\x0b' (by decide)⟩, hne '\x0c' (by decide)⟩
  · simp [isSafeChar, Char.isAlphanum, Char.isAlpha, h]
  · simp only [isStripChar, Bool.or_eq_false_iff, decide_eq_false_iff_not]
    exact ⟨hne '.' (by decide), hne '_' (by decide)⟩

theorem goodExt_of_lowerStr {ext tgt : List Char} (h : lowerStr ext = tgt)
    (htgt : ∀ d ∈ tgt, goodExtChar d = true) :
    ∀ c ∈ ext, goodExtChar c = true := by
  intro c hc
  rcases lowerChar_eq_or_upper c with hl | hu
  · have hm : lowerChar c ∈ tgt := h ▸ List.mem_map_of_mem lowerChar hc
    rw [hl] at hm
    exact htgt c hm
  · exact goodExtChar_of_upper hu

theorem eq_append_extAfterLastDot (fn : List Char) :
    fn = (fn.reverse.dropWhile (fun c => decide (c ≠ '.'))).reverse ++
      extAfterLastDot fn := by
  have h : (fn.reverse.dropWhile (fun c => decide (c ≠ '.'))).reverse ++
      extAfterLastDot fn = fn := by
    unfold extAfterLastDot
    rw [← List.reverse_append, List.takeWhile_append_dropWhile,
      List.reverse_reverse]
  exact h.symm

theorem allowed_file_ext_mem {fn : List Char} (h : allowed_file fn = true) :
    lowerStr (extAfterLastDot fn) = "zip".data ∨
      lowerStr (extAfterLastDot fn) = "csv".data := by
  unfold allowed_file at h
  rw [Bool.and_eq_true] at h
  have h2 := h.2
  simp [ALLOWED_EXTENSIONS] at h2
  exact h2

/-- If `allowed_file` accepts a filename, its sanitised form keeps the
(nonempty, good-charactered) extension as a suffix. -/
theorem secure_filename_keeps_ext {fn : List Char}
    (ha : allowed_file fn = true) :
    extAfterLastDot fn ≠ [] ∧ extAfterLastDot fn <:+ secure_filename fn := by
  have hext := allowed_file_ext_mem ha
  have hgood : ∀ c ∈ extAfterLastDot fn, goodExtChar c = true := by
    rcases hext with h | h
    · exact goodExt_of_lowerStr h (by decide)
    · exact goodExt_of_lowerStr h (by decide)
  have hne : extAfterLastDot fn ≠ [] := by
    rcases hext with h | h <;> (intro he; rw [he] at h; simp [lowerStr] at h)
  refine ⟨hne, ?_⟩
  cases hee : extAfterLastDot fn with
  | nil => exact absurd hee hne
  | cons e es =>
    have hdecomp := eq_append_extAfterLastDot fn
    rw [hee] at hdecomp
    have hs := secure_filename_suffix (hee ▸ hgood)
      (fn.reverse.dropWhile (fun c => decide (c ≠ '.'))).reverse
    rw [← hdecomp] at hs
    exact hs

/-- C5: every character a sanitised filename can contain lies in the safe set
`[A-Za-z0-9_.-]` — in particular no `'/'` path separator ever survives — a
nonempty sanitised name never starts with `'.'` or `'_'` (so it is not `"."`
or `".."`), and every filename the handler actually uses the sanitised name
for (one passing the `allowed_file` guard, which runs first) sanitises to a
nonempty name: a filename whose sanitisation would be empty is rejected at
the extension check, never used as-is, so the stored path stays inside the
destination day directory. -/
theorem sanitization_safe :
    (∀ fn, ∀ c ∈ secure_filename fn, isSafeChar c = true) ∧
    (∀ fn, '/' ∉ secure_filename fn) ∧
    (∀ fn c cs, secure_filename fn = c :: cs → isStripChar c = false) ∧
    (∀ fn, allowed_file fn = true → secure_filename fn ≠ []) := by
  refine ⟨fun fn c hc => secure_filename_mem_safe hc,
    fun fn hmem => absurd (secure_filename_mem_safe hmem) (by decide),
    fun fn c cs h => secure_filename_head h,
    fun fn ha => ?_⟩
  obtain ⟨hne, hsuf⟩ := secure_filename_keeps_ext ha
  intro hnil
  rw [hnil, List.suffix_nil] at hsuf
  exact hne hsuf

def fnXcsv : List Char := "x.csv".data

/-- C5 witness: a concrete traversal-attempt filename and a concrete allowed
filename. -/
theorem sanitization_safe_witness :
    isSafeChar 'x' = true ∧
      '/' ∉ secure_filename ("../a/x.csv".data) ∧
      secure_filename fnXcsv ≠ [] :=
  ⟨sanitization_safe.1 fnXcsv 'x' (by decide),
    sanitization_safe.2.1 ("../a/x.csv".data),
    sanitization_safe.2.2.2 fnXcsv (by decide)⟩

/-! ### Success-path case analysis -/

theorem desc_block_cases {cfg : ServerConfig} {env : ServerEnv}
    {req : UploadRequest} {t2 : List FsAction} {m : String} {tr : List FsAction}
    (h : (if req.description = [] then
            HandlerResult.resp 201 "Secure upload successful" t2
          else if env.descWriteFails then HandlerResult.raised t2
          else HandlerResult.resp 201 "Secure upload successful"
            (t2 ++ [FsAction.writeText
              [cfg.uploadFolder, env.dateStr, env.timeStr ++ descTxt]
              req.description])) = .resp 201 m tr) :
    (req.description = [] ∧ tr = t2) ∨
    (req.description ≠ [] ∧ tr = t2 ++ [FsAction.writeText
      [cfg.uploadFolder, env.dateStr, env.timeStr ++ descTxt]
      req.description]) := by
  split at h
  · next hd =>
    simp only [HandlerResult.resp.injEq] at h
    exact Or.inl ⟨hd, h.2.2.symm⟩
  · next hd =>
    split at h
    · simp at h
    · simp only [HandlerResult.resp.injEq] at h
      exact Or.inr ⟨hd, h.2.2.symm⟩

theorem t2_filter_writeBytes {cfg : ServerConfig} {env : ServerEnv}
    {p : List (List Char)} {b : List Nat} :
    ((if env.dailyFolderExists then ([] : List FsAction)
      else [FsAction.mkdirp [cfg.uploadFolder, env.dateStr]]) ++
        [FsAction.writeBytes p b]).filter FsAction.isWriteBytes =
      [FsAction.writeBytes p b] := by
  split <;> simp [FsAction.isWriteBytes]

theorem t2_filter_writeText {cfg : ServerConfig} {env : ServerEnv}
    {p : List (List Char)} {b : List Nat} :
    ((if env.dailyFolderExists then ([] : List FsAction)
      else [FsAction.mkdirp [cfg.uploadFolder, env.dateStr]]) ++
        [FsAction.writeBytes p b]).filter FsAction.isWriteText = [] := by
  split <;> simp [FsAction.isWriteText]

/-! ### C3: a successful upload creates exactly one report file -/

/-- C3: whenever the handler answers 201 (a successful upload), the
filesystem trace contains exactly one byte-file write, whose path is
`{root}/{date}/{time}_{sanitised filename}` for the request's file part and
whose content is exactly the uploaded body. -/
theorem upload_success_unique_report (cfg : ServerConfig) (env : ServerEnv)
    (req : UploadRequest) (f : FilePart) (m : String) (tr : List FsAction)
    (hf : req.filePart = some f)
    (h : upload_file cfg env req = .resp 201 m tr) :
    tr.filter FsAction.isWriteBytes =
      [FsAction.writeBytes
        [cfg.uploadFolder, env.dateStr,
          env.timeStr ++ '_' :: secure_filename f.filename] f.content] := by
  simp only [upload_file, hf] at h
  split at h
  · simp at h
  · split at h
    · simp at h
    · split at h
      · split at h
        · split at h
          · simp at h
          · simp at h
          · rcases desc_block_cases h with ⟨_, rfl⟩ | ⟨_, rfl⟩
            · exact t2_filter_writeBytes
            · rw [List.filter_append, t2_filter_writeBytes]
              simp [FsAction.isWriteBytes]
        · rcases desc_block_cases h with ⟨_, rfl⟩ | ⟨_, rfl⟩
          · exact t2_filter_writeBytes
          · rw [List.filter_append, t2_filter_writeBytes]
            simp [FsAction.isWriteBytes]
      · simp at h

def fileCsv : FilePart := { filename := "data.csv".data, content := [1, 2, 3] }

def reqCsvOk : UploadRequest :=
  { authToken := some keyW, filePart := some fileCsv, description := [] }

def trCsv : List FsAction :=
  [FsAction.mkdirp [cfgW.uploadFolder, envW.dateStr],
    FsAction.writeBytes
      [cfgW.uploadFolder, envW.dateStr,
        envW.timeStr ++ '_' :: secure_filename fileCsv.filename]
      fileCsv.content]

/-- C3 witness: a concrete successful `.csv` upload and its unique report
write. -/
theorem upload_success_unique_report_witness :
    upload_file cfgW envW reqCsvOk = .resp 201 "Secure upload successful" trCsv ∧
      trCsv.filter FsAction.isWriteBytes =
        [FsAction.writeBytes
          [cfgW.uploadFolder, envW.dateStr,
            envW.timeStr ++ '_' :: secure_filename fileCsv.filename]
          fileCsv.content] :=
  ⟨by decide,
    upload_success_unique_report cfgW envW reqCsvOk fileCsv
      ("Secure upload successful") trCsv rfl (by decide)⟩

/-! ### C6: description sibling file (amended to accepted uploads) -/

/-- C6 (amended): for every upload request the handler fully accepts
(response 201), a sibling description file write `{HHMMSS}_desc.txt` in the
same day directory appears in the trace exactly when the supplied description
is non-empty, and its content is exactly the supplied description text.  (As
originally stated over every upload request the claim fails: rejected
requests never write a description file even when a description is
supplied.) -/
theorem upload_desc_sibling (cfg : ServerConfig) (env : ServerEnv)
    (req : UploadRequest) (m : String) (tr : List FsAction)
    (h : upload_file cfg env req = .resp 201 m tr) :
    tr.filter FsAction.isWriteText =
      (if req.description = [] then []
       else [FsAction.writeText
         [cfg.uploadFolder, env.dateStr, env.timeStr ++ descTxt]
         req.description]) := by
  cases hf : req.filePart with
  | none =>
    simp only [upload_file, hf] at h
    split at h
    · simp at h
    · simp at h
  | some f =>
    simp only [upload_file, hf] at h
    split at h
    · simp at h
    · split at h
      · simp at h
      · split at h
        · split at h
          · split at h
            · simp at h
            · simp at h
            · rcases desc_block_cases h with ⟨hd, rfl⟩ | ⟨hd, rfl⟩
              · rw [if_pos hd]
                exact t2_filter_writeText
              · rw [if_neg hd, List.filter_append, t2_filter_writeText]
                simp [FsAction.isWriteText]
          · rcases desc_block_cases h with ⟨hd, rfl⟩ | ⟨hd, rfl⟩
            · rw [if_pos hd]
              exact t2_filter_writeText
            · rw [if_neg hd, List.filter_append, t2_filter_writeText]
              simp [FsAction.isWriteText]
        · simp at h

def reqBadTokDesc : UploadRequest :=
  { authToken := some ("wrong".data), filePart := some fileCsv,
    description := "note".data }

/-- C6 counterexample to the claim as stated over every upload request: an
unauthorized upload supplies a non-empty description, yet no description
file write occurs (the trace is empty), so the created-iff-non-empty
biconditional fails. -/
theorem upload_desc_iff_counterexample :
    reqBadTokDesc.description ≠ [] ∧
      (upload_file cfgW envW reqBadTokDesc).trace.filter
        FsAction.isWriteText = [] := by
  constructor
  · decide
  · decide

def reqCsvDesc : UploadRequest :=
  { authToken := some keyW, filePart := some fileCsv,
    description := "note".data }

def trCsvDesc : List FsAction :=
  trCsv ++ [FsAction.writeText
    [cfgW.uploadFolder, envW.dateStr, envW.timeStr ++ descTxt]
    reqCsvDesc.description]

/-- C6 witness: a concrete accepted upload with a non-empty description and
its sibling description write. -/
theorem upload_desc_sibling_witness :
    upload_file cfgW envW reqCsvDesc =
        .resp 201 "Secure upload successful" trCsvDesc ∧
      trCsvDesc.filter FsAction.isWriteText =
        (if reqCsvDesc.description = [] then []
         else [FsAction.writeText
           [cfgW.uploadFolder, envW.dateStr, envW.timeStr ++ descTxt]
           reqCsvDesc.description]) :=
  ⟨by decide,
    upload_desc_sibling cfgW envW reqCsvDesc ("Secure upload successful")
      trCsvDesc (by decide)⟩

/-! ### C4: rejected zip uploads stay on disk -/

theorem t2_no_delete {cfg : ServerConfig} {env : ServerEnv}
    {p : List (List Char)} {b : List Nat} :
    ∀ a ∈ ((if env.dailyFolderExists then ([] : List FsAction)
      else [FsAction.mkdirp [cfg.uploadFolder, env.dateStr]]) ++
        [FsAction.writeBytes p b]), a.isDelete = false := by
  intro a ha
  rcases List.mem_append.mp ha with h1 | h1
  · split at h1
    · simp at h1
    · simp at h1
      subst h1
      rfl
  · simp at h1
    subst h1
    rfl


/-- C4: an authenticated, allow-listed upload whose sanitised name ends in
`.zip` and whose written bytes fail the archive check (corrupted member or
open error) gets a 400 response whose message is `Corrupted ZIP` or
`Invalid ZIP`, while the trace still contains the report-file write and
contains no delete action: the file written before the check stays on disk. -/
theorem upload_zip_reject_keeps_file (cfg : ServerConfig) (env : ServerEnv)
    (req : UploadRequest) (f : FilePart) (hA : check_auth cfg req = true)
    (hf : req.filePart = some f) (hn : f.filename ≠ [])
    (ha : allowed_file f.filename = true)
    (hz : dotZip <:+ secure_filename f.filename)
    (hbad : env.zipTest f.content ≠ .ok) :
    (upload_file cfg env req).statusOf = some 400 ∧
      ((upload_file cfg env req).msgOf = some ("Corrupted ZIP") ∨
        (upload_file cfg env req).msgOf = some ("Invalid ZIP")) ∧
      FsAction.writeBytes
        [cfg.uploadFolder, env.dateStr,
          env.timeStr ++ '_' :: secure_filename f.filename] f.content ∈
        (upload_file cfg env req).trace ∧
      (∀ a ∈ (upload_file cfg env req).trace, a.isDelete = false) := by
  cases hc : env.zipTest f.content with
  | ok => exact absurd hc hbad
  | corruptMember =>
    have hres : upload_file cfg env req = .resp 400 "Corrupted ZIP"
        ((if env.dailyFolderExists then ([] : List FsAction)
          else [FsAction.mkdirp [cfg.uploadFolder, env.dateStr]]) ++
          [FsAction.writeBytes
            [cfg.uploadFolder, env.dateStr,
              env.timeStr ++ '_' :: secure_filename f.filename] f.content]) := by
      simp [upload_file, hA, hf, hn, ha, hz, hc]
    rw [hres]
    exact ⟨rfl, Or.inl rfl,
      List.mem_append_right _ (List.mem_singleton_self _), t2_no_delete⟩
  | openError =>
    have hres : upload_file cfg env req = .resp 400 "Invalid ZIP"
        ((if env.dailyFolderExists then ([] : List FsAction)
          else [FsAction.mkdirp [cfg.uploadFolder, env.dateStr]]) ++
          [FsAction.writeBytes
            [cfg.uploadFolder, env.dateStr,
              env.timeStr ++ '_' :: secure_filename f.filename] f.content]) := by
      simp [upload_file, hA, hf, hn, ha, hz, hc]
    rw [hres]
    exact ⟨rfl, Or.inr rfl,
      List.mem_append_right _ (List.mem_singleton_self _), t2_no_delete⟩

def fileZip : FilePart := { filename := "a.zip".data, content := [80, 75] }

def reqZipBad : UploadRequest :=
  { authToken := some keyW, filePart := some fileZip, description := [] }

def envCorrupt : ServerEnv :=
  { envW with zipTest := fun _ => ZipOutcome.corruptMember }

/-- C4 witness: a concrete `.zip` upload whose integrity test reports a
corrupted member. -/
theorem upload_zip_reject_keeps_file_witness :
    (dotZip <:+ secure_filename fileZip.filename) ∧
      (upload_file cfgW envCorrupt reqZipBad).statusOf = some 400 ∧
      ((upload_file cfgW envCorrupt reqZipBad).msgOf = some ("Corrupted ZIP") ∨
        (upload_file cfgW envCorrupt reqZipBad).msgOf = some ("Invalid ZIP")) ∧
      FsAction.writeBytes
        [cfgW.uploadFolder, envCorrupt.dateStr,
          envCorrupt.timeStr ++ '_' :: secure_filename fileZip.filename]
        fileZip.content ∈ (upload_file cfgW envCorrupt reqZipBad).trace ∧
      (∀ a ∈ (upload_file cfgW envCorrupt reqZipBad).trace,
        a.isDelete = false) :=
  ⟨by decide,
    upload_zip_reject_keeps_file cfgW envCorrupt reqZipBad fileZip
      (by decide) rfl (by decide) (by decide) (by decide) (by decide)⟩

/-! ### C9: exception behaviour (amended) -/

/-- C9 (amended): a failing description-file write is not tolerated: on an
otherwise accepted upload with a non-empty description it raises an uncaught
exception (no HTTP response is produced by the handler, so the response is
not the 201 it would otherwise be); an exception while opening the written
zip archive, by contrast, is caught and mapped to the 400 `Invalid ZIP`
response.  (The claim's first half — that a failed description write leaves
the response unchanged — is false on the code: there is no try/except around
the description write.) -/
theorem upload_error_handling (cfg : ServerConfig) (env : ServerEnv)
    (req : UploadRequest) (f : FilePart) (hA : check_auth cfg req = true)
    (hf : req.filePart = some f) (hn : f.filename ≠ [])
    (ha : allowed_file f.filename = true) :
    ((dotZip <:+ secure_filename f.filename →
        env.zipTest f.content = .ok) →
      req.description ≠ [] → env.descWriteFails = true →
      (upload_file cfg env req).statusOf = none) ∧
    (dotZip <:+ secure_filename f.filename →
      env.zipTest f.content = .openError →
      upload_file cfg env req = .resp 400 "Invalid ZIP"
        ((if env.dailyFolderExists then ([] : List FsAction)
          else [FsAction.mkdirp [cfg.uploadFolder, env.dateStr]]) ++
          [FsAction.writeBytes
            [cfg.uploadFolder, env.dateStr,
              env.timeStr ++ '_' :: secure_filename f.filename]
            f.content])) := by
  constructor
  · intro hzok hd hw
    by_cases hz : dotZip <:+ secure_filename f.filename
    · have hok := hzok hz
      simp [upload_file, hA, hf, hn, ha, hz, hok, hd, hw,
        HandlerResult.statusOf]
    · simp [upload_file, hA, hf, hn, ha, hz, hd, hw, HandlerResult.statusOf]
  · intro hz he
    simp [upload_file, hA, hf, hn, ha, hz, he]

def envWFail : ServerEnv := { envW with descWriteFails := true }

/-- C9 counterexample: on a concrete accepted upload with a non-empty
description, a failing description write changes the handler outcome (an
uncaught exception instead of the 201 produced when the write succeeds), so
the claim that a failed description write does not change the response is
false. -/
theorem upload_error_handling_counterexample :
    upload_file cfgW envWFail reqCsvDesc ≠ upload_file cfgW envW reqCsvDesc ∧
      (upload_file cfgW envW reqCsvDesc).statusOf = some 201 ∧
      (upload_file cfgW envWFail reqCsvDesc).statusOf = none := by
  exact ⟨by decide, by decide, by decide⟩

def envOpenErr : ServerEnv :=
  { envW with zipTest := fun _ => ZipOutcome.openError }

/-- C9 witness: the amended theorem at concrete inputs — a failing
description write on a `.csv` upload yields no response, and a zip that
fails to open yields 400 `Invalid ZIP`. -/
theorem upload_error_handling_witness :
    (upload_file cfgW envWFail reqCsvDesc).statusOf = none ∧
      upload_file cfgW envOpenErr reqZipBad = .resp 400 "Invalid ZIP"
        ((if envOpenErr.dailyFolderExists then ([] : List FsAction)
          else [FsAction.mkdirp [cfgW.uploadFolder, envOpenErr.dateStr]]) ++
          [FsAction.writeBytes
            [cfgW.uploadFolder, envOpenErr.dateStr,
              envOpenErr.timeStr ++ '_' :: secure_filename fileZip.filename]
            fileZip.content]) :=
  ⟨(upload_error_handling cfgW envWFail reqCsvDesc fileCsv (by decide) rfl
      (by decide) (by decide)).1 (fun _ => rfl) (by decide) rfl,
    (upload_error_handling cfgW envOpenErr reqZipBad fileZip (by decide) rfl
      (by decide) (by decide)).2 (by decide) rfl⟩

/-! ### C10: mixed-case `.ZIP` names skip the integrity check -/

theorem takeWhile_append_stop {p : Char → Bool} {l : List Char}
    (hl : ∀ c ∈ l, p c = true) {a : Char} (ha : p a = false)
    (rest : List Char) : (l ++ a :: rest).takeWhile p = l := by
  induction l with
  | nil =>
    rw [List.nil_append, List.takeWhile_cons, ha]
    simp
  | cons c cs ih =>
    rw [List.cons_append, List.takeWhile_cons, hl c (List.mem_cons_self c cs)]
    simp [ih (fun d hd => hl d (List.mem_cons_of_mem _ hd))]

theorem extAfterLastDot_append {stem ext : List Char}
    (hnd : ∀ c ∈ ext, c ≠ '.') :
    extAfterLastDot (stem ++ '.' :: ext) = ext := by
  unfold extAfterLastDot
  rw [List.reverse_append, List.reverse_cons, List.append_assoc,
    List.singleton_append]
  rw [takeWhile_append_stop
    (fun c hc => decide_eq_true (hnd c (List.mem_reverse.mp hc)))
    (by decide) stem.reverse]
  exact List.reverse_reverse ext

theorem suffix_eq_of_length {l1 l2 s : List Char} (h1 : l1 <:+ s)
    (h2 : l2 <:+ s) (hl : l1.length = l2.length) : l1 = l2 := by
  obtain ⟨p1, hp1⟩ := h1
  obtain ⟨p2, hp2⟩ := h2
  exact List.append_inj_right' (hp1.trans hp2.symm) hl

/-- C10: for an authenticated upload whose filename is `{stem}.{ext}` where
`ext` lower-cases to `zip` but is not all-lowercase (e.g. `report.ZIP`), the
allow-list accepts the name, yet the sanitised name does not end in the
lowercase literal `.zip`, so the archive-integrity branch is skipped and the
handler answers 201 — for every zip oracle, in particular when the stored
bytes are not a valid archive (write failures absent). -/
theorem upload_mixed_case_zip_skips_check (cfg : ServerConfig)
    (env : ServerEnv) (req : UploadRequest) (f : FilePart)
    (stem ext : List Char) (hA : check_auth cfg req = true)
    (hf : req.filePart = some f) (hfn : f.filename = stem ++ '.' :: ext)
    (hlow : lowerStr ext = "zip".data) (hneq : ext ≠ "zip".data)
    (hw : env.descWriteFails = false) :
    allowed_file f.filename = true ∧
      (upload_file cfg env req).statusOf = some 201 := by
  have hgood : ∀ c ∈ ext, goodExtChar c = true :=
    goodExt_of_lowerStr hlow (by decide)
  have hnd : ∀ c ∈ ext, c ≠ '.' := by
    intro c hc
    have h5 := (goodExtChar_spec (hgood c hc)).2.2.2.2
    simp only [isStripChar, Bool.or_eq_false_iff, decide_eq_false_iff_not] at h5
    exact h5.1
  have hextEq : extAfterLastDot f.filename = ext := by
    rw [hfn]
    exact extAfterLastDot_append hnd
  have hall : allowed_file f.filename = true := by
    unfold allowed_file
    rw [hextEq, hlow, Bool.and_eq_true]
    constructor
    · rw [hfn]
      exact List.elem_eq_true_of_mem
        (List.mem_append_right stem (List.mem_cons_self '.' ext))
    · decide
  have hsan : ext <:+ secure_filename f.filename := by
    have hs := (secure_filename_keeps_ext hall).2
    rwa [hextEq] at hs
  have hnotzip : ¬(dotZip <:+ secure_filename f.filename) := by
    intro hcon
    have hzipsuf : "zip".data <:+ secure_filename f.filename :=
      List.IsSuffix.trans (by decide) hcon
    have hlen : ext.length = ("zip".data).length := by
      rw [← hlow]
      simp [lowerStr]
    exact hneq (suffix_eq_of_length hsan hzipsuf hlen)
  have hn : f.filename ≠ [] := by
    rw [hfn]
    simp
  refine ⟨hall, ?_⟩
  by_cases hd : req.description = []
  · simp [upload_file, hA, hf, hn, hall, hnotzip, hd, HandlerResult.statusOf]
  · simp [upload_file, hA, hf, hn, hall, hnotzip, hd, hw,
      HandlerResult.statusOf]

def stemRep : List Char := "report".data

def extZIPu : List Char := "ZIP".data

def fileZIPcase : FilePart :=
  { filename := "report.ZIP".data, content := [0] }

def reqZIPcase : UploadRequest :=
  { authToken := some keyW, filePart := some fileZIPcase, description := [] }

/-- C10 witness: `report.ZIP` with a zip oracle that always fails — still a
201 with the allow-list passing. -/
theorem upload_mixed_case_zip_skips_check_witness :
    allowed_file fileZIPcase.filename = true ∧
      (upload_file cfgW envOpenErr reqZIPcase).statusOf = some 201 :=
  upload_mixed_case_zip_skips_check cfgW envOpenErr reqZIPcase fileZIPcase
    stemRep extZIPu (by decide) rfl (by decide) (by decide) (by decide) rfl
